import Mathlib

/-!
# Verification of the ts-unused pipeline (src/index.ts)

A shallow embedding of the unused-symbol detection pipeline of
`src/index.ts` (whose compiled twin is `src/index.js`):

* `createMatcher` / `createFilter` — the filter-rule compiler;
* `collectTargets` — the declaration collector (recursive tree descent);
* `isReferenced` — the reference classifier;
* `processFile` / `run` — the main loop, record emission and the
  per-file / global line totals.

Modelling conventions:

* JavaScript strings are modelled as `List Char` (`JsStr`).
* The external `minimatch` glob matcher is an abstract parameter
  `gmatch : JsStr → JsStr → Bool` (glob semantics are out of scope).
* The reference-resolution service (`service.findReferences`) is an
  abstract parameter `resolve : JsStr → Nat → Option (List RefGroup)`;
  `none` models the TypeScript API returning `undefined` (no result
  groups).  `index.ts` iterates the result with `for..of` without a
  guard, so `none` raises a TypeError; this is modelled as
  `Except.error ()` propagating out of the run.
* `file.getLineAndCharacterOfPosition` is a per-file abstract function
  `posOf : Nat → Pos` from source offsets to line/character pairs.
* `Number(s) || undefined` is modelled for the decimal-digit strings the
  rule format uses: a non-empty all-digit string yields its value
  (`0`, the empty string, and non-numeric strings yield `none`, matching
  the falsiness of `0`/`NaN`).
* The JS `Set` bucket (insertion-ordered, identity-deduplicating) is
  modelled as a `List` with membership-checked append (`bucketAdd`).
-/

namespace TsUnused

/-- JavaScript strings, modelled as lists of characters. -/
abbrev JsStr := List Char

/-- Shorthand for writing `JsStr` literals. -/
def str (s : String) : JsStr := s.data

/-- The `ts.SyntaxKind` values the tool inspects (all other kinds are
collapsed into `other`). -/
inductive SyntaxKind where
  | interfaceDeclaration
  | classDeclaration
  | methodDeclaration
  | functionDeclaration
  | propertyDeclaration
  | moduleDeclaration
  | enumDeclaration
  | typeAliasDeclaration
  | privateKeyword
  | protectedKeyword
  | exportKeyword
  | identifier
  | sourceFile
  | other
deriving DecidableEq, Repr

/-- The `ts.ScriptElementKind` values the classifier inspects. -/
inductive ScriptElementKind where
  | classElement
  | otherElement
deriving DecidableEq, Repr

/-- `ts.LineAndCharacter`: a 0-based line/character pair. -/
structure Pos where
  line : Nat
  character : Nat
deriving DecidableEq, Repr

/-- An identifier node (`node.name`): its text and its start offset. -/
structure Ident where
  text : JsStr
  startPos : Nat
deriving DecidableEq, Repr

/-- A node of the declaration tree: kind, modifier list (`undefined`
modifiers modelled as `[]`), optional name identifier, start/end source
offsets, and children (in `ts.forEachChild` order). -/
inductive TsNode where
  | mk (kind : SyntaxKind) (modifiers : List SyntaxKind) (name : Option Ident)
       (startPos endPos : Nat) (children : List TsNode)

/-- The node's `kind`. -/
def TsNode.kind : TsNode → SyntaxKind
  | .mk k _ _ _ _ _ => k

/-- The node's `modifiers` list. -/
def TsNode.modifiers : TsNode → List SyntaxKind
  | .mk _ m _ _ _ _ => m

/-- The node's `name` identifier, when present. -/
def TsNode.name : TsNode → Option Ident
  | .mk _ _ n _ _ _ => n

/-- The node's `getStart()` offset. -/
def TsNode.startPos : TsNode → Nat
  | .mk _ _ _ s _ _ => s

/-- The node's `getEnd()` offset. -/
def TsNode.endPos : TsNode → Nat
  | .mk _ _ _ _ e _ => e

/-- The node's children, in `ts.forEachChild` order. -/
def TsNode.children : TsNode → List TsNode
  | .mk _ _ _ _ _ c => c

/-- Per-file context: the file's name and its offset-to-position map
(`file.getLineAndCharacterOfPosition`). -/
structure FileCtx where
  fileName : JsStr
  posOf : Nat → Pos

/-- `NodeFilter` from index.ts, specialised to identifier nodes: the
matcher reads the identifier's text and start position plus the ambient
file context. -/
abbrev NodeFilter := FileCtx → Ident → Bool

/-- `String.prototype.lastIndexOf` for a single character: the index of
the last occurrence, or `-1`. -/
def lastIdxOf (l : JsStr) (c : Char) : Int :=
  match l with
  | [] => -1
  | x :: xs =>
      let r := lastIdxOf xs c
      if r ≥ 0 then r + 1 else if x = c then 0 else -1

/-- Value of a non-empty decimal-digit string. -/
def digitsToNat (l : JsStr) : Nat :=
  l.foldl (fun a c => a * 10 + (c.toNat - 48)) 0

/-- `Number(s) || undefined`, modelled for the decimal-digit strings the
rule format uses: `some n` exactly when `s` is a non-empty digit string
with nonzero value. -/
def jsNumberOpt (l : JsStr) : Option Nat :=
  if l ≠ [] ∧ l.all Char.isDigit ∧ digitsToNat l ≠ 0 then some (digitsToNat l) else none

section Matchers

variable (gmatch : JsStr → JsStr → Bool)

/-- `createMatcher` from index.ts: parse one raw rule
`<pathPattern>|<namePattern>:<lineNumber>`; without a pipe the rule is a
filename-only glob.  Note that `namePattern` is everything after the
pipe (the `:<lineNumber>` suffix included, as in the source), and that
the matcher is a disjunction of the present sub-conditions. -/
def createMatcher (raw : JsStr) : NodeFilter :=
  let pipe := lastIdxOf raw '|'
  let colon := lastIdxOf raw ':'
  if pipe < 0 then
    fun ctx _ => gmatch ctx.fileName raw
  else
    let pathPattern := raw.take pipe.toNat
    let namePattern := raw.drop (pipe.toNat + 1)
    let lineNumber := jsNumberOpt (raw.drop (colon + 1).toNat)
    fun ctx ident =>
      (pathPattern ≠ [] && gmatch ctx.fileName pathPattern)
      || (namePattern ≠ [] && gmatch ident.text namePattern)
      || (match lineNumber with
          | some n => (ctx.posOf ident.startPos).line + 1 == n
          | none => false)

/-- The built-in default rule set of `createFilter`. -/
def defaultExcludes : List JsStr :=
  [str "**/test/**", str "**.test.ts", str "**/*.d.ts"]

/-- `createFilter` from index.ts, after the rule source has been read:
given the rule list (the default set, or the non-blank lines of the
`--ignoreCheck` file), keep a node exactly when no compiled matcher
matches it. -/
def createFilter (rules : List JsStr) : NodeFilter :=
  let all := rules.map (createMatcher gmatch)
  fun ctx ident => !(all.any fun m => m ctx ident)

end Matchers

/-- A collected candidate: the identifier node together with its parent
node's (the enclosing declaration's) start/end offsets.  The parent of a
`node.name` identifier is the declaration node itself, so the enclosing
span is recorded at collection time. -/
structure Target where
  ident : Ident
  parentStart : Nat
  parentEnd : Nat
deriving DecidableEq, Repr

/-- The eight candidate declaration kinds of `collectTargets`'s `switch`. -/
def candidateKinds : List SyntaxKind :=
  [.interfaceDeclaration, .classDeclaration, .methodDeclaration,
   .functionDeclaration, .propertyDeclaration, .moduleDeclaration,
   .enumDeclaration, .typeAliasDeclaration]

/-- The `switch` of `collectTargets`: the node's name identifier when its
kind is one of the eight candidate kinds (`undefined` otherwise). -/
def declIdent (n : TsNode) : Option Ident :=
  if n.kind ∈ candidateKinds then n.name else none

/-- `Set.prototype.add`: insertion-ordered, deduplicating append. -/
def bucketAdd (b : List Target) (t : Target) : List Target :=
  if t ∈ b then b else b ++ [t]

/-- The body of `collectTargets`'s per-child callback up to the recursive
call: if the visited node lacks a `private` modifier and is a named node
of a candidate kind whose identifier passes the filter, add its target to
the bucket. -/
def stepAdd (f : NodeFilter) (ctx : FileCtx) (n : TsNode) (b : List Target) : List Target :=
  if SyntaxKind.privateKeyword ∈ n.modifiers then b
  else
    match declIdent n with
    | some i => if f ctx i then bucketAdd b ⟨i, n.startPos, n.endPos⟩ else b
    | none => b

mutual

/-- `collectTargets` from index.ts: `ts.forEachChild(node, child => ...)`
— for each child of `node`, first (re-)add `node`'s own candidate target
(when `node` is not `private`-marked, of a candidate kind, named, and the
name passes the filter), then recurse into the child.  A node with no
children triggers no callback at all. -/
def collectTargets (ctx : FileCtx) (f : NodeFilter) : TsNode → List Target → List Target
  | .mk k mods nm s e cs, bucket => collectChildren ctx f (.mk k mods nm s e cs) cs bucket

/-- The `forEachChild` iteration of `collectTargets` over the remaining
children, threading the bucket. -/
def collectChildren (ctx : FileCtx) (f : NodeFilter) (parent : TsNode) :
    List TsNode → List Target → List Target
  | [], b => b
  | c :: cs, b =>
      collectChildren ctx f parent cs (collectTargets ctx f c (stepAdd f ctx parent b))

end

/-- The candidate target `stepAdd` would add for a visited node, if any:
present exactly when the node lacks a `private` modifier, is of a
candidate kind, is named, and the name passes the filter. -/
def selfTarget (f : NodeFilter) (ctx : FileCtx) (n : TsNode) : Option Target :=
  if SyntaxKind.privateKeyword ∈ n.modifiers then none
  else
    match declIdent n with
    | some i => if f ctx i then some ⟨i, n.startPos, n.endPos⟩ else none
    | none => none

mutual

/-- Whether traversing `n` emits the target `t` into the bucket:
either `n` itself contributes `t` (it has at least one child, so the
`forEachChild` callback fires, and `selfTarget` yields `t`), or some
child's subtree emits `t`. -/
def emitsB (ctx : FileCtx) (f : NodeFilter) : TsNode → Target → Bool
  | .mk k mods nm s e cs, t =>
      (!cs.isEmpty && decide (selfTarget f ctx (.mk k mods nm s e cs) = some t))
      || emitsList ctx f cs t

/-- Whether some node of the list's subtrees emits `t`. -/
def emitsList (ctx : FileCtx) (f : NodeFilter) : List TsNode → Target → Bool
  | [], _ => false
  | c :: cs, t => emitsB ctx f c t || emitsList ctx f cs t

end

theorem mem_bucketAdd {b : List Target} {t t' : Target} :
    t ∈ bucketAdd b t' ↔ t ∈ b ∨ t = t' := by
  unfold bucketAdd
  split
  · constructor
    · exact Or.inl
    · rintro (h | rfl)
      · exact h
      · assumption
  · simp [List.mem_append]

theorem mem_stepAdd {f : NodeFilter} {ctx : FileCtx} {n : TsNode} {b : List Target}
    {t : Target} :
    t ∈ stepAdd f ctx n b ↔ t ∈ b ∨ selfTarget f ctx n = some t := by
  unfold stepAdd selfTarget
  split
  · simp
  · cases h : declIdent n with
    | none => simp
    | some i =>
        by_cases hf : f ctx i
        · simp only [hf, if_true, mem_bucketAdd]
          constructor
          · rintro (h | rfl)
            · exact Or.inl h
            · exact Or.inr rfl
          · rintro (h | h)
            · exact Or.inl h
            · exact Or.inr (Option.some.inj h).symm
        · simp [hf]

mutual

/-- Bucket-membership characterization of `collectTargets`: a target is
in the output bucket iff it was already in the input bucket or the
subtree emits it. -/
theorem mem_collectTargets (ctx : FileCtx) (f : NodeFilter) (n : TsNode)
    (b : List Target) (t : Target) :
    t ∈ collectTargets ctx f n b ↔ t ∈ b ∨ emitsB ctx f n t = true := by
  cases n with
  | mk k mods nm s e cs =>
      rw [collectTargets, emitsB]
      rw [mem_collectChildren ctx f (.mk k mods nm s e cs) cs b t]
      cases cs with
      | nil => simp [emitsList]
      | cons c cs' => simp [emitsList]

/-- Bucket-membership characterization of the `forEachChild` iteration. -/
theorem mem_collectChildren (ctx : FileCtx) (f : NodeFilter) (parent : TsNode)
    (cs : List TsNode) (b : List Target) (t : Target) :
    t ∈ collectChildren ctx f parent cs b ↔
      t ∈ b ∨ (cs ≠ [] ∧ selfTarget f ctx parent = some t) ∨ emitsList ctx f cs t = true := by
  cases cs with
  | nil => simp [collectChildren, emitsList]
  | cons c cs' =>
      rw [collectChildren]
      rw [mem_collectChildren ctx f parent cs' (collectTargets ctx f c (stepAdd f ctx parent b)) t]
      rw [mem_collectTargets ctx f c (stepAdd f ctx parent b) t]
      rw [mem_stepAdd]
      rw [emitsList]
      constructor
      · rintro (((h | h) | h) | h | h)
        · exact Or.inl h
        · exact Or.inr (Or.inl ⟨List.cons_ne_nil c cs', h⟩)
        · exact Or.inr (Or.inr (by simp [h]))
        · exact Or.inr (Or.inl ⟨List.cons_ne_nil c cs', h.2⟩)
        · exact Or.inr (Or.inr (by simp [h]))
      · rintro (h | ⟨-, h⟩ | h)
        · exact Or.inl (Or.inl (Or.inl h))
        · exact Or.inl (Or.inl (Or.inr h))
        · rcases Bool.or_eq_true_iff.mp h with h | h
          · exact Or.inl (Or.inr h)
          · exact Or.inr (Or.inr h)

end

/-- `Subnode m n`: `m` is `n` itself or a node of a subtree of `n`. -/
inductive Subnode : TsNode → TsNode → Prop where
  | refl (n : TsNode) : Subnode n n
  | child {m c n : TsNode} : c ∈ n.children → Subnode m c → Subnode m n

theorem selfTarget_eq_some {f : NodeFilter} {ctx : FileCtx} {n : TsNode} {t : Target} :
    selfTarget f ctx n = some t ↔
      SyntaxKind.privateKeyword ∉ n.modifiers ∧
        declIdent n = some t.ident ∧ f ctx t.ident = true ∧
        t.parentStart = n.startPos ∧ t.parentEnd = n.endPos := by
  unfold selfTarget
  split
  · rename_i hp
    simp only [reduceCtorEq, false_iff]
    rintro ⟨hnp, -⟩
    exact hnp hp
  · rename_i hp
    cases h : declIdent n with
    | none => simp_all
    | some i =>
        by_cases hf : f ctx i
        · simp only [hf, if_true, Option.some.injEq]
          constructor
          · rintro rfl
            exact ⟨hp, rfl, hf, rfl, rfl⟩
          · rintro ⟨-, hi, -, h1, h2⟩
            cases t with
            | mk ti ts te =>
                cases hi
                simp_all
        · simp only [hf, if_false, reduceCtorEq, false_iff]
          rintro ⟨-, hi, hft, -⟩
          cases Option.some.inj hi
          exact hf hft

mutual

/-- A target emitted by traversing `n` originates at some node of `n`'s
subtree: a non-`private`, named, candidate-kind node with at least one
child, whose name passes the filter, and whose own start/end offsets are
the target's parent span. -/
theorem emitsB_subnode (ctx : FileCtx) (f : NodeFilter) :
    ∀ (n : TsNode) (t : Target), emitsB ctx f n t = true →
      ∃ m, Subnode m n ∧ m.children ≠ [] ∧ selfTarget f ctx m = some t
  | .mk k mods nm s e cs, t, h => by
      rw [emitsB] at h
      rcases Bool.or_eq_true_iff.mp h with h | h
      · rcases Bool.and_eq_true_iff.mp h with ⟨h1, h2⟩
        refine ⟨.mk k mods nm s e cs, .refl _, ?_, of_decide_eq_true h2⟩
        intro hcs
        rw [show (TsNode.mk k mods nm s e cs).children = cs from rfl] at hcs
        subst hcs
        simp at h1
      · obtain ⟨c, hc, m, hm, hne, hself⟩ := emitsList_subnode ctx f cs t h
        exact ⟨m, .child hc hm, hne, hself⟩

/-- List version of `emitsB_subnode`. -/
theorem emitsList_subnode (ctx : FileCtx) (f : NodeFilter) :
    ∀ (cs : List TsNode) (t : Target), emitsList ctx f cs t = true →
      ∃ c ∈ cs, ∃ m, Subnode m c ∧ m.children ≠ [] ∧ selfTarget f ctx m = some t
  | c :: cs, t, h => by
      rw [emitsList] at h
      rcases Bool.or_eq_true_iff.mp h with h | h
      · obtain ⟨m, hm, hne, hself⟩ := emitsB_subnode ctx f c t h
        exact ⟨c, by simp, m, hm, hne, hself⟩
      · obtain ⟨c', hc', m, hm, hne, hself⟩ := emitsList_subnode ctx f cs t h
        exact ⟨c', List.mem_cons_of_mem _ hc', m, hm, hne, hself⟩

end

/-- One reference occurrence returned by the resolution service
(`ts.ReferenceEntry`): its file, its `textSpan` start/length, and the
`isDefinition` flag. -/
structure RefEntry where
  fileName : JsStr
  start : Nat
  length : Nat
  isDefinition : Bool
deriving DecidableEq, Repr

/-- One result group of `service.findReferences` (`ts.ReferencedSymbol`):
the resolved definition's kind and its reference entries. -/
structure RefGroup where
  defKind : ScriptElementKind
  references : List RefEntry
deriving DecidableEq, Repr

/-- The test-file glob of `isReferenced`. -/
def testFilePattern : JsStr := str "\x7b**/test/**,**.test.ts\x7d"

/-- The body of `isReferenced`'s inner loop: a reference entry survives
(and makes the declaration "used") when it is not the definition, is not
in a test file, and is not a class-element reference in the defining
file falling within the enclosing declaration's span. -/
def refSurvives (gmatch : JsStr → JsStr → Bool) (fileName : JsStr) (t : Target)
    (defKind : ScriptElementKind) (r : RefEntry) : Bool :=
  !r.isDefinition
  && !(gmatch r.fileName testFilePattern)
  && !(decide (defKind = .classElement)
       && decide (r.fileName = fileName)
       && decide (t.parentStart ≤ r.start)
       && decide (r.start + r.length < t.parentEnd))

/-- `isReferenced` from index.ts: query `service.findReferences` at the
identifier's start and scan the groups for one surviving reference.  The
source iterates the result with `for..of` and no guard, so a missing
(`undefined`) result raises a TypeError, modelled as `Except.error ()`;
an empty group list falls through to `return false`. -/
def isReferenced (gmatch : JsStr → JsStr → Bool)
    (resolve : JsStr → Nat → Option (List RefGroup))
    (fileName : JsStr) (t : Target) : Except Unit Bool :=
  match resolve fileName t.ident.startPos with
  | none => .error ()
  | some groups =>
      .ok (groups.any fun g => g.references.any (refSurvives gmatch fileName t g.defKind))

/-- `UnusedSymbolRecord` from index.ts.  The `end` field is renamed
`endPos` (`end` is a Lean keyword); `span` carries the source's default
initializer `1 + end.line - start.line`. -/
structure UnusedSymbolRecord where
  fileName : JsStr
  symbolName : JsStr
  start : Pos
  endPos : Pos
  span : Int := 1 + (endPos.line : Int) - (start.line : Int)
deriving DecidableEq, Repr

/-- `UnusedSymbolRecord.compareBySpan` from index.ts (defined in the
source but never invoked on the report). -/
def UnusedSymbolRecord.compareBySpan (a b : UnusedSymbolRecord) : Int :=
  a.span - b.span

/-- One source file as the main loop sees it: name, position map, and
declaration tree root. -/
structure SourceUnit where
  fileName : JsStr
  posOf : Nat → Pos
  root : TsNode

/-- The per-file context handed to matchers. -/
def unitCtx (u : SourceUnit) : FileCtx := ⟨u.fileName, u.posOf⟩

/-- The record the main loop builds for an unused target:
`new UnusedSymbolRecord(file.fileName, target.getText(), start, end)`
with `start`/`end` the line/character positions of the target's parent
node (the enclosing declaration). -/
def mkRecord (u : SourceUnit) (t : Target) : UnusedSymbolRecord :=
  { fileName := u.fileName
    symbolName := t.ident.text
    start := u.posOf t.parentStart
    endPos := u.posOf t.parentEnd }

section Pipeline

variable (gmatch : JsStr → JsStr → Bool) (rules : List JsStr)
variable (resolve : JsStr → Nat → Option (List RefGroup))

/-- The body of the per-target loop of the main loop: query the
classifier and, when unused, emit a record (appended to the `unused`
list) and add its span to `fileLines`.  A classifier TypeError
propagates (the program has no handler). -/
def classifyStep (u : SourceUnit) (acc : List UnusedSymbolRecord × Int) (t : Target) :
    Except Unit (List UnusedSymbolRecord × Int) := do
  let used ← isReferenced gmatch resolve u.fileName t
  if used then
    pure acc
  else
    let record := mkRecord u t
    pure (acc.1 ++ [record], acc.2 + record.span)

/-- The per-file body of the main loop: collect the targets, then run
the per-target loop over them in bucket order. -/
def processFile (u : SourceUnit) : Except Unit (List UnusedSymbolRecord × Int) :=
  let targets := collectTargets (unitCtx u) (createFilter gmatch rules) u.root []
  targets.foldlM (classifyStep gmatch resolve u) ([], 0)

/-- The per-file step of the main loop: process the file, append its
records to the global `unused` list, and fold its `fileLines` into
`totalLines` (the source guards the addition with `fileLines > 0`). -/
def runStep (acc : List UnusedSymbolRecord × Int) (u : SourceUnit) :
    Except Unit (List UnusedSymbolRecord × Int) := do
  let result ← processFile gmatch rules resolve u
  pure (acc.1 ++ result.1, if result.2 > 0 then acc.2 + result.2 else acc.2)

/-- The whole main loop of index.ts over all source files: the global
`unused` list in discovery order and the global `totalLines`. -/
def run (units : List SourceUnit) : Except Unit (List UnusedSymbolRecord × Int) :=
  units.foldlM (runStep gmatch rules resolve) ([], 0)

/-- The candidate set of one source unit (the bucket `collectTargets`
fills for it, in insertion order). -/
def unitTargets (u : SourceUnit) : List Target :=
  collectTargets (unitCtx u) (createFilter gmatch rules) u.root []

/-- The classifier's verdict for one target, on the success path
(`none` from the service is mapped to `false` here; the pipeline lemmas
only use it under a no-crash hypothesis). -/
def usedB (u : SourceUnit) (t : Target) : Bool :=
  match resolve u.fileName t.ident.startPos with
  | none => false
  | some groups =>
      groups.any fun g => g.references.any (refSurvives gmatch u.fileName t g.defKind)

/-- The records one unit contributes, in discovery order. -/
def unitRecords (u : SourceUnit) : List UnusedSymbolRecord :=
  ((unitTargets gmatch rules u).filter fun t => !usedB gmatch resolve u t).map (mkRecord u)

/-- The unit's `fileLines` total: the sum of its records' spans. -/
def unitLines (u : SourceUnit) : Int :=
  ((unitRecords gmatch rules resolve u).map UnusedSymbolRecord.span).sum

/-- The global `unused` list: per-unit records concatenated in unit
order. -/
def allRecords (units : List SourceUnit) : List UnusedSymbolRecord :=
  (units.map (unitRecords gmatch rules resolve)).flatten

/-- The global `totalLines` accumulator value. -/
def totalLines (units : List SourceUnit) : Int :=
  units.foldl
    (fun a u => if unitLines gmatch rules resolve u > 0 then a + unitLines gmatch rules resolve u else a) 0

theorem usedB_eq_any {u : SourceUnit} {t : Target} {gs : List RefGroup}
    (hgs : resolve u.fileName t.ident.startPos = some gs) :
    usedB gmatch resolve u t =
      gs.any fun g => g.references.any (refSurvives gmatch u.fileName t g.defKind) := by
  unfold usedB
  rw [hgs]

theorem classifyFold_eq (u : SourceUnit) (ts : List Target)
    (h : ∀ t ∈ ts, resolve u.fileName t.ident.startPos ≠ none)
    (acc : List UnusedSymbolRecord × Int) :
    ts.foldlM (classifyStep gmatch resolve u) acc =
      .ok (acc.1 ++ ((ts.filter fun t => !usedB gmatch resolve u t).map (mkRecord u)),
           acc.2 + ((((ts.filter fun t => !usedB gmatch resolve u t).map (mkRecord u)).map
                      UnusedSymbolRecord.span)).sum) := by
  induction ts generalizing acc with
  | nil =>
      simp only [List.foldlM_nil, List.filter_nil, List.map_nil, List.append_nil,
        List.sum_nil, add_zero]
      rfl
  | cons t ts ih =>
      obtain ⟨gs, hgs⟩ : ∃ gs, resolve u.fileName t.ident.startPos = some gs := by
        cases hr : resolve u.fileName t.ident.startPos with
        | none => exact absurd hr (h t (by simp))
        | some gs => exact ⟨gs, rfl⟩
      have hts : ∀ t' ∈ ts, resolve u.fileName t'.ident.startPos ≠ none := by
        intro t' ht'
        exact h t' (List.mem_cons_of_mem _ ht')
      rw [List.foldlM_cons]
      have hstep : classifyStep gmatch resolve u acc t =
          if usedB gmatch resolve u t then Except.ok acc
          else Except.ok (acc.1 ++ [mkRecord u t], acc.2 + (mkRecord u t).span) := by
        unfold classifyStep isReferenced
        rw [hgs, usedB_eq_any gmatch resolve hgs]
        rfl
      by_cases hu : usedB gmatch resolve u t = true
      · rw [hstep, if_pos hu]
        show ts.foldlM (classifyStep gmatch resolve u) acc = _
        rw [ih hts acc]
        simp [List.filter_cons, hu]
      · have hfu : usedB gmatch resolve u t = false := by
          revert hu
          cases usedB gmatch resolve u t <;> simp
        rw [hstep, if_neg hu]
        show ts.foldlM (classifyStep gmatch resolve u) _ = _
        rw [ih hts]
        simp [List.filter_cons, hfu, add_assoc]

theorem processFile_eq (u : SourceUnit)
    (h : ∀ t ∈ unitTargets gmatch rules u, resolve u.fileName t.ident.startPos ≠ none) :
    processFile gmatch rules resolve u =
      .ok (unitRecords gmatch rules resolve u, unitLines gmatch rules resolve u) := by
  unfold unitTargets at h
  unfold processFile
  rw [classifyFold_eq gmatch resolve u _ h]
  simp [unitRecords, unitLines, unitTargets, List.map_map]

theorem totalLines_shift (units : List SourceUnit) (b : Int) :
    units.foldl
      (fun a u => if unitLines gmatch rules resolve u > 0 then a + unitLines gmatch rules resolve u else a) b =
      b + units.foldl
        (fun a u => if unitLines gmatch rules resolve u > 0 then a + unitLines gmatch rules resolve u else a) 0 := by
  induction units generalizing b with
  | nil => simp
  | cons u us ih =>
      simp only [List.foldl_cons]
      rw [ih]
      conv_rhs => rw [ih]
      split_ifs <;> ring

theorem runFold_eq (units : List SourceUnit)
    (h : ∀ u ∈ units, ∀ t ∈ unitTargets gmatch rules u,
          resolve u.fileName t.ident.startPos ≠ none)
    (acc : List UnusedSymbolRecord × Int) :
    units.foldlM (runStep gmatch rules resolve) acc =
      .ok (acc.1 ++ allRecords gmatch rules resolve units,
           acc.2 + totalLines gmatch rules resolve units) := by
  induction units generalizing acc with
  | nil =>
      simp only [List.foldlM_nil, allRecords, List.map_nil, List.flatten_nil,
        List.append_nil, totalLines, List.foldl_nil, add_zero]
      rfl
  | cons u us ih =>
      have hu := h u (by simp)
      have hus : ∀ u' ∈ us, ∀ t ∈ unitTargets gmatch rules u',
          resolve u'.fileName t.ident.startPos ≠ none := by
        intro u' hu' t ht
        exact h u' (List.mem_cons_of_mem _ hu') t ht
      rw [List.foldlM_cons]
      have hstep : runStep gmatch rules resolve acc u =
          Except.ok (acc.1 ++ unitRecords gmatch rules resolve u,
            if unitLines gmatch rules resolve u > 0 then acc.2 + unitLines gmatch rules resolve u
            else acc.2) := by
        unfold runStep
        rw [processFile_eq gmatch rules resolve u hu]
        rfl
      rw [hstep]
      show us.foldlM (runStep gmatch rules resolve) _ = _
      rw [ih hus]
      have hrec : allRecords gmatch rules resolve (u :: us) =
          unitRecords gmatch rules resolve u ++ allRecords gmatch rules resolve us := by
        simp [allRecords]
      have htot : totalLines gmatch rules resolve (u :: us) =
          (if unitLines gmatch rules resolve u > 0 then unitLines gmatch rules resolve u else 0)
            + totalLines gmatch rules resolve us := by
        unfold totalLines
        simp only [List.foldl_cons]
        rw [totalLines_shift]
        split_ifs <;> ring
      rw [hrec, htot]
      by_cases hl : unitLines gmatch rules resolve u > 0
      · simp only [if_pos hl, List.append_assoc]
        congr 1
        congr 1
        ring
      · simp only [if_neg hl, List.append_assoc]
        congr 1
        congr 1
        ring

theorem run_eq (units : List SourceUnit)
    (h : ∀ u ∈ units, ∀ t ∈ unitTargets gmatch rules u,
          resolve u.fileName t.ident.startPos ≠ none) :
    run gmatch rules resolve units =
      .ok (allRecords gmatch rules resolve units, totalLines gmatch rules resolve units) := by
  unfold run
  rw [runFold_eq gmatch rules resolve units h]
  simp

end Pipeline

/-! ### Helper lemmas for the claim proofs -/

theorem lastIdxOf_eq_neg_one {l : JsStr} {c : Char} (h : c ∉ l) : lastIdxOf l c = -1 := by
  induction l with
  | nil => rfl
  | cons x xs ih =>
      have hx : x ≠ c := fun he => h (he ▸ List.mem_cons_self x xs)
      have hxs : c ∉ xs := fun hm => h (List.mem_cons_of_mem _ hm)
      rw [lastIdxOf]
      simp [ih hxs, hx]

theorem lastIdxOf_cons_head {l : JsStr} {c : Char} (h : c ∉ l) :
    lastIdxOf (c :: l) c = 0 := by
  rw [lastIdxOf]
  simp [lastIdxOf_eq_neg_one h]

theorem jsNumberOpt_digits {l : JsStr} (h1 : l ≠ []) (h2 : l.all Char.isDigit = true)
    (h3 : digitsToNat l ≠ 0) : jsNumberOpt l = some (digitsToNat l) := by
  unfold jsNumberOpt
  rw [if_pos ⟨h1, h2, h3⟩]

theorem emitsList_of_mem {ctx : FileCtx} {f : NodeFilter} {cs : List TsNode} {c : TsNode}
    {t : Target} (hc : c ∈ cs) (h : emitsB ctx f c t = true) :
    emitsList ctx f cs t = true := by
  induction cs with
  | nil => cases hc
  | cons x xs ih =>
      rw [emitsList]
      rcases List.mem_cons.mp hc with rfl | hm
      · simp [h]
      · simp [ih hm]

theorem emitsB_of_child {ctx : FileCtx} {f : NodeFilter} {n c : TsNode} {t : Target}
    (hc : c ∈ n.children) (h : emitsB ctx f c t = true) : emitsB ctx f n t = true := by
  cases n with
  | mk k mods nm s e cs =>
      rw [emitsB]
      have : emitsList ctx f cs t = true := emitsList_of_mem hc h
      simp [this]

theorem emitsB_self {ctx : FileCtx} {f : NodeFilter} {n : TsNode} {t : Target}
    (hc : n.children ≠ []) (hs : selfTarget f ctx n = some t) : emitsB ctx f n t = true := by
  cases n with
  | mk k mods nm s e cs =>
      rw [emitsB]
      have hcs : cs ≠ [] := hc
      have : cs.isEmpty = false := by
        cases cs with
        | nil => exact absurd rfl hcs
        | cons _ _ => rfl
      simp [this, hs]

/-- A node's own candidate (when it has a child, so the `forEachChild`
callback fires) lands in the bucket. -/
theorem self_collected {ctx : FileCtx} {f : NodeFilter} {n : TsNode} {t : Target}
    (b : List Target) (hc : n.children ≠ []) (hs : selfTarget f ctx n = some t) :
    t ∈ collectTargets ctx f n b := by
  rw [mem_collectTargets]
  exact Or.inr (emitsB_self hc hs)

theorem stepAdd_private {f : NodeFilter} {ctx : FileCtx} {n : TsNode}
    (h : SyntaxKind.privateKeyword ∈ n.modifiers) (b : List Target) :
    stepAdd f ctx n b = b := by
  unfold stepAdd
  rw [if_pos h]

theorem collectChildren_private {ctx : FileCtx} {f : NodeFilter} {parent : TsNode}
    (h : SyntaxKind.privateKeyword ∈ parent.modifiers) :
    ∀ (cs : List TsNode) (b : List Target),
      collectChildren ctx f parent cs b =
        cs.foldl (fun acc c => collectTargets ctx f c acc) b := by
  intro cs
  induction cs with
  | nil => intro b; rfl
  | cons c cs ih =>
      intro b
      rw [collectChildren, stepAdd_private h, List.foldl_cons, ih]

mutual

/-- All node spans in a tree are well formed (`getStart() ≤ getEnd()`),
as a decidable check. -/
def wfSpansB : TsNode → Bool
  | .mk _ _ _ s e cs => decide (s ≤ e) && wfSpansList cs

/-- List version of `wfSpansB`. -/
def wfSpansList : List TsNode → Bool
  | [] => true
  | c :: cs => wfSpansB c && wfSpansList cs

end

theorem wfSpansList_mem {cs : List TsNode} {c : TsNode} (hc : c ∈ cs)
    (h : wfSpansList cs = true) : wfSpansB c = true := by
  induction cs with
  | nil => cases hc
  | cons x xs ih =>
      rw [wfSpansList, Bool.and_eq_true] at h
      rcases List.mem_cons.mp hc with rfl | hm
      · exact h.1
      · exact ih hm h.2

theorem startPos_le_endPos_of_wfSpansB {m n : TsNode} (hsub : Subnode m n) :
    wfSpansB n = true → m.startPos ≤ m.endPos := by
  induction hsub with
  | refl =>
      intro h
      cases m with
      | mk k mods nm s e cs =>
          rw [wfSpansB, Bool.and_eq_true] at h
          exact of_decide_eq_true h.1
  | child hc hsub ih =>
      intro h
      apply ih
      rename_i c n'
      cases n' with
      | mk k mods nm s e cs =>
          rw [wfSpansB, Bool.and_eq_true] at h
          exact wfSpansList_mem hc h.2

/-- Every emitted record of a unit originates from a collected target
whose parent span is the span of some node of the unit's tree. -/
theorem unitRecords_origin (gmatch : JsStr → JsStr → Bool) (rules : List JsStr)
    (resolve : JsStr → Nat → Option (List RefGroup)) (u : SourceUnit) :
    ∀ r ∈ unitRecords gmatch rules resolve u,
      ∃ t m, t ∈ unitTargets gmatch rules u ∧ r = mkRecord u t ∧
        usedB gmatch resolve u t = false ∧ Subnode m u.root ∧ m.children ≠ [] ∧
        selfTarget (createFilter gmatch rules) (unitCtx u) m = some t := by
  intro r hr
  rw [unitRecords] at hr
  obtain ⟨t, ht, rfl⟩ := List.mem_map.mp hr
  obtain ⟨htm, htf⟩ := List.mem_filter.mp ht
  have hused : usedB gmatch resolve u t = false := by
    revert htf
    cases usedB gmatch resolve u t <;> simp
  have htm' : t ∈ collectTargets (unitCtx u) (createFilter gmatch rules) u.root [] := htm
  rcases (mem_collectTargets _ _ _ _ _).mp htm' with hin | hem
  · cases hin
  · obtain ⟨m, hsub, hne, hself⟩ := emitsB_subnode _ _ _ _ hem
    exact ⟨t, m, htm, rfl, hused, hsub, hne, hself⟩

/-- Under monotone line numbering and well-formed node spans, every
emitted record's span is at least 1. -/
theorem unitRecords_span_ge_one (gmatch : JsStr → JsStr → Bool) (rules : List JsStr)
    (resolve : JsStr → Nat → Option (List RefGroup)) (u : SourceUnit)
    (hmono : ∀ a b : Nat, a ≤ b → (u.posOf a).line ≤ (u.posOf b).line)
    (hwf : wfSpansB u.root = true) :
    ∀ r ∈ unitRecords gmatch rules resolve u, 1 ≤ r.span := by
  intro r hr
  obtain ⟨t, m, -, rfl, -, hsub, -, hself⟩ := unitRecords_origin gmatch rules resolve u r hr
  obtain ⟨-, -, -, hps, hpe⟩ := selfTarget_eq_some.mp hself
  have hse : m.startPos ≤ m.endPos := startPos_le_endPos_of_wfSpansB hsub hwf
  have hline : (u.posOf t.parentStart).line ≤ (u.posOf t.parentEnd).line := by
    rw [hps, hpe]
    exact hmono _ _ hse
  show 1 ≤ (mkRecord u t).span
  have hspan : (mkRecord u t).span =
      1 + ((u.posOf t.parentEnd).line : Int) - ((u.posOf t.parentStart).line : Int) := rfl
  rw [hspan]
  omega

theorem totalLines_cons (gmatch : JsStr → JsStr → Bool) (rules : List JsStr)
    (resolve : JsStr → Nat → Option (List RefGroup)) (u : SourceUnit)
    (us : List SourceUnit) :
    totalLines gmatch rules resolve (u :: us) =
      (if unitLines gmatch rules resolve u > 0 then unitLines gmatch rules resolve u else 0)
        + totalLines gmatch rules resolve us := by
  unfold totalLines
  simp only [List.foldl_cons]
  rw [totalLines_shift]
  split_ifs <;> ring

/-- Under monotone line numbering and well-formed spans for every unit,
the global `totalLines` equals the sum of all emitted records' spans. -/
theorem totalLines_eq_sum (gmatch : JsStr → JsStr → Bool) (rules : List JsStr)
    (resolve : JsStr → Nat → Option (List RefGroup)) (units : List SourceUnit)
    (hmono : ∀ u ∈ units, ∀ a b : Nat, a ≤ b → (u.posOf a).line ≤ (u.posOf b).line)
    (hwf : ∀ u ∈ units, wfSpansB u.root = true) :
    totalLines gmatch rules resolve units =
      ((allRecords gmatch rules resolve units).map UnusedSymbolRecord.span).sum := by
  induction units with
  | nil => simp [totalLines, allRecords]
  | cons u us ih =>
      have hu : ∀ r ∈ unitRecords gmatch rules resolve u, 1 ≤ r.span :=
        unitRecords_span_ge_one gmatch rules resolve u (hmono u (by simp)) (hwf u (by simp))
      have hsum : unitLines gmatch rules resolve u =
          ((unitRecords gmatch rules resolve u).map UnusedSymbolRecord.span).sum := rfl
      have hrest : totalLines gmatch rules resolve us =
          ((allRecords gmatch rules resolve us).map UnusedSymbolRecord.span).sum := by
        apply ih
        · intro v hv
          exact hmono v (List.mem_cons_of_mem _ hv)
        · intro v hv
          exact hwf v (List.mem_cons_of_mem _ hv)
      have hflat : ((allRecords gmatch rules resolve (u :: us)).map UnusedSymbolRecord.span).sum =
          unitLines gmatch rules resolve u +
            ((allRecords gmatch rules resolve us).map UnusedSymbolRecord.span).sum := by
        rw [allRecords]
        simp only [List.map_cons, List.flatten_cons, List.map_append, List.sum_append]
        rw [hsum, allRecords]
      rw [totalLines_cons, hflat, hrest]
      by_cases hpos : unitLines gmatch rules resolve u > 0
      · rw [if_pos hpos]
      · rw [if_neg hpos]
        have hzero : unitLines gmatch rules resolve u = 0 := by
          rw [hsum]
          cases hcase : unitRecords gmatch rules resolve u with
          | nil => simp
          | cons r rs =>
              exfalso
              have hr1 : 1 ≤ r.span := hu r (by rw [hcase]; simp)
              have hrs : ∀ x ∈ rs, 1 ≤ x.span := by
                intro x hx
                exact hu x (by rw [hcase]; exact List.mem_cons_of_mem _ hx)
              have : 0 < ((unitRecords gmatch rules resolve u).map UnusedSymbolRecord.span).sum := by
                rw [hcase]
                simp only [List.map_cons, List.sum_cons]
                have : 0 ≤ (rs.map UnusedSymbolRecord.span).sum := by
                  apply List.sum_nonneg
                  intro x hx
                  obtain ⟨y, hy, rfl⟩ := List.mem_map.mp hx
                  exact le_trans (by omega) (hrs y hy)
                omega
              rw [← hsum] at this
              omega
        rw [hzero]

/-! ### Concrete sample data for witnesses and counterexamples -/

/-- A glob matcher that matches nothing. -/
def gmatchNone : JsStr → JsStr → Bool := fun _ _ => false

/-- A glob matcher that matches exactly on string equality. -/
def gmatchEq : JsStr → JsStr → Bool := fun a b => a == b

/-- A resolution service returning an empty group list for every query. -/
def resolveNoRefs : JsStr → Nat → Option (List RefGroup) := fun _ _ => some []

/-- A resolution service returning no result (`undefined`) for every query. -/
def resolveMissing : JsStr → Nat → Option (List RefGroup) := fun _ _ => none

/-- A filter keeping every node. -/
def keepAll : NodeFilter := fun _ _ => true

/-- A sample file context with the identity line map. -/
def ctx0 : FileCtx := ⟨str "x.ts", fun n => ⟨n, 0⟩⟩

def fooIdent : Ident := ⟨str "foo", 10⟩

/-- A sample exported function declaration `foo`, offsets 8–20. -/
def fooNode : TsNode :=
  .mk .functionDeclaration [] (some fooIdent) 8 20 [.mk .identifier [] none 10 13 []]

def fooRoot : TsNode := .mk .sourceFile [] none 0 30 [fooNode]

def fooUnit : SourceUnit := ⟨str "a.ts", fun n => ⟨n, 0⟩, fooRoot⟩

def fooTarget : Target := ⟨fooIdent, 8, 20⟩

def toStrIdent : Ident := ⟨str "toString", 5⟩

/-- A sample method declaration named `toString`, offsets 3–9. -/
def toStrNode : TsNode :=
  .mk .methodDeclaration [] (some toStrIdent) 3 9 [.mk .identifier [] none 5 6 []]

def toStrRoot : TsNode := .mk .sourceFile [] none 0 30 [toStrNode]

def toStrUnit : SourceUnit := ⟨str "t.ts", fun n => ⟨n, 0⟩, toStrRoot⟩

/-- Three sibling function declarations with line spans 5, 1 and 3 in
discovery order. -/
def sortRoot : TsNode :=
  .mk .sourceFile [] none 0 40
    [.mk .functionDeclaration [] (some ⟨str "a", 1⟩) 0 4 [.mk .identifier [] none 1 2 []],
     .mk .functionDeclaration [] (some ⟨str "b", 11⟩) 10 10 [.mk .identifier [] none 11 12 []],
     .mk .functionDeclaration [] (some ⟨str "c", 21⟩) 20 22 [.mk .identifier [] none 21 22 []]]

def sortUnit : SourceUnit := ⟨str "s.ts", fun n => ⟨n, 0⟩, sortRoot⟩

def methIdent : Ident := ⟨str "m", 105⟩

/-- A class `C` (offsets 90–150) with a method `m` (offsets 100–140). -/
def classRoot : TsNode :=
  .mk .sourceFile [] none 0 200
    [.mk .classDeclaration [] (some ⟨str "C", 95⟩) 90 150
      [.mk .methodDeclaration [] (some methIdent) 100 140
        [.mk .identifier [] none 105 106 []]]]

def classUnit : SourceUnit := ⟨str "b.ts", fun n => ⟨n, 0⟩, classRoot⟩

def methTarget : Target := ⟨methIdent, 100, 140⟩

/-- A resolution service whose only reference is a class-element
reference inside `m`'s own body (offset 120, in the defining file). -/
def resolveSelfRef : JsStr → Nat → Option (List RefGroup) :=
  fun _ _ => some [⟨.classElement, [⟨str "b.ts", 120, 1, false⟩]⟩]

def innerIdent : Ident := ⟨str "inner", 42⟩

/-- A public method `inner` nested under a `private`-marked class `P`. -/
def innerNode : TsNode :=
  .mk .methodDeclaration [] (some innerIdent) 40 50 [.mk .identifier [] none 42 47 []]

def privNode : TsNode :=
  .mk .classDeclaration [.privateKeyword] (some ⟨str "P", 31⟩) 30 60 [innerNode]

def protIdent : Ident := ⟨str "prot", 12⟩

/-- A `protected`-marked method declaration. -/
def protNode : TsNode :=
  .mk .methodDeclaration [.protectedKeyword] (some protIdent) 10 15
    [.mk .identifier [] none 12 16 []]

/-! ### The claims -/

/-- C3 (counterexample): a declaration named exactly `toString` IS
collected by the current collector (`index.ts` applies no built-in name
heuristic), here with no matching user filter rule, and it even reaches
the final unused report. -/
theorem claim3_counterexample :
    (⟨toStrIdent, 3, 9⟩ : Target) ∈
        collectTargets ctx0 (createFilter gmatchNone []) toStrNode [] ∧
    (run gmatchNone [] resolveNoRefs [toStrUnit]).map
        (fun p => p.1.map UnusedSymbolRecord.symbolName) = .ok [str "toString"] :=
  ⟨by decide, by rfl⟩

/-- C3 (amended): the collector of index.ts applies no built-in name
heuristic: a named, non-`private` declaration of candidate kind whose
identifier is exactly `toString` and passes the compiled user filter is
collected as a candidate (the `toString`/`dispose`/`toJSON` exclusion
exists only in the legacy README variant's `acceptName`). -/
theorem claim3_toString_collected (ctx : FileCtx) (f : NodeFilter) (n : TsNode) (i : Ident)
    (b : List Target) (hk : n.kind ∈ candidateKinds)
    (hp : SyntaxKind.privateKeyword ∉ n.modifiers) (hn : n.name = some i)
    (_hname : i.text = str "toString") (hf : f ctx i = true) (hc : n.children ≠ []) :
    (⟨i, n.startPos, n.endPos⟩ : Target) ∈ collectTargets ctx f n b := by
  apply self_collected b hc
  rw [selfTarget_eq_some]
  refine ⟨hp, ?_, hf, rfl, rfl⟩
  unfold declIdent
  rw [if_pos hk, hn]

/-- C3 witness: the amended claim applied to the concrete `toString`
method node with the default-empty rule set. -/
theorem claim3_witness :
    (⟨toStrIdent, 3, 9⟩ : Target) ∈
      collectTargets ctx0 (createFilter gmatchNone []) toStrNode [] :=
  claim3_toString_collected ctx0 (createFilter gmatchNone []) toStrNode toStrIdent []
    (by decide) (by decide) (by decide) (by decide) (by decide) (List.cons_ne_nil _ _)

/-- C4: evaluation of `isReferenced` at the failing input.  An empty
group list is classified "unused" (`ok false`), as the claim says, but a
missing (`undefined`) result — `for..of` over `undefined` — raises a
TypeError that aborts the whole run instead of being treated as
"unused": the code contradicts the claimed no-error behaviour. -/
theorem claim4_missing_groups_crash :
    isReferenced gmatchNone resolveNoRefs (str "a.ts") fooTarget = .ok false ∧
    isReferenced gmatchNone resolveMissing (str "a.ts") fooTarget = .error () ∧
    run gmatchNone [] resolveMissing [fooUnit] = .error () :=
  ⟨rfl, rfl, rfl⟩

/-- C9: a node carrying an explicit `private` modifier has its own
candidate suppressed — traversal degenerates to the plain fold over its
children — but the exclusion is not transitive: a non-`private`
candidate-kind child nested under the private container is still
collected. -/
theorem claim9_private_not_transitive (ctx : FileCtx) (f : NodeFilter) :
    (∀ (n : TsNode) (b : List Target), SyntaxKind.privateKeyword ∈ n.modifiers →
        collectTargets ctx f n b =
          n.children.foldl (fun acc c => collectTargets ctx f c acc) b) ∧
    (∀ (container child : TsNode) (i : Ident) (b : List Target),
        SyntaxKind.privateKeyword ∈ container.modifiers →
        child ∈ container.children →
        child.kind ∈ candidateKinds →
        SyntaxKind.privateKeyword ∉ child.modifiers →
        child.name = some i → f ctx i = true → child.children ≠ [] →
        (⟨i, child.startPos, child.endPos⟩ : Target) ∈ collectTargets ctx f container b) := by
  constructor
  · intro n b hpriv
    cases n with
    | mk k mods nm s e cs =>
        rw [collectTargets]
        exact collectChildren_private hpriv cs b
  · intro container child i b hpriv hc hk hp hn hf hcc
    rw [mem_collectTargets]
    right
    apply emitsB_of_child hc
    apply emitsB_self hcc
    rw [selfTarget_eq_some]
    refine ⟨hp, ?_, hf, rfl, rfl⟩
    unfold declIdent
    rw [if_pos hk, hn]

/-- C9 witness: both parts at the concrete private class `P` with the
public nested method `inner`. -/
theorem claim9_witness :
    collectTargets ctx0 keepAll privNode [] =
        privNode.children.foldl (fun acc c => collectTargets ctx0 keepAll c acc) [] ∧
    (⟨innerIdent, 40, 50⟩ : Target) ∈ collectTargets ctx0 keepAll privNode [] :=
  ⟨(claim9_private_not_transitive ctx0 keepAll).1 privNode [] (by decide),
   (claim9_private_not_transitive ctx0 keepAll).2 privNode innerNode innerIdent []
     (by decide) (List.mem_cons_self _ _) (by decide) (by decide) (by decide) (by decide)
     (List.cons_ne_nil _ _)⟩

/-- C10: the collector's visibility test looks only for the `private`
modifier keyword: a `protected`-marked declaration, and a top-level
declaration with no `export` modifier at all, are both still collected
as candidates (when named, of candidate kind, passing the filter). -/
theorem claim10_only_private_checked (ctx : FileCtx) (f : NodeFilter) :
    (∀ (n : TsNode) (i : Ident) (b : List Target),
        n.kind ∈ candidateKinds →
        SyntaxKind.protectedKeyword ∈ n.modifiers →
        SyntaxKind.privateKeyword ∉ n.modifiers →
        n.name = some i → f ctx i = true → n.children ≠ [] →
        (⟨i, n.startPos, n.endPos⟩ : Target) ∈ collectTargets ctx f n b) ∧
    (∀ (n : TsNode) (i : Ident) (b : List Target),
        n.kind ∈ candidateKinds →
        SyntaxKind.exportKeyword ∉ n.modifiers →
        SyntaxKind.privateKeyword ∉ n.modifiers →
        n.name = some i → f ctx i = true → n.children ≠ [] →
        (⟨i, n.startPos, n.endPos⟩ : Target) ∈ collectTargets ctx f n b) := by
  constructor
  · intro n i b hk _ hp hn hf hc
    apply self_collected b hc
    rw [selfTarget_eq_some]
    refine ⟨hp, ?_, hf, rfl, rfl⟩
    unfold declIdent
    rw [if_pos hk, hn]
  · intro n i b hk _ hp hn hf hc
    apply self_collected b hc
    rw [selfTarget_eq_some]
    refine ⟨hp, ?_, hf, rfl, rfl⟩
    unfold declIdent
    rw [if_pos hk, hn]

/-- C10 witness: a concrete `protected` method and a concrete
`export`-less top-level function are both collected. -/
theorem claim10_witness :
    (⟨protIdent, 10, 15⟩ : Target) ∈ collectTargets ctx0 keepAll protNode [] ∧
    (⟨fooIdent, 8, 20⟩ : Target) ∈ collectTargets ctx0 keepAll fooNode [] :=
  ⟨(claim10_only_private_checked ctx0 keepAll).1 protNode protIdent []
     (by decide) (by decide) (by decide) (by decide) (by decide) (List.cons_ne_nil _ _),
   (claim10_only_private_checked ctx0 keepAll).2 fooNode fooIdent []
     (by decide) (by decide) (by decide) (by decide) (by decide) (List.cons_ne_nil _ _)⟩


/-- Unfolding of `createMatcher` on a rule containing a pipe. -/
theorem createMatcher_pipe (gmatch : JsStr → JsStr → Bool) (raw : JsStr) (ctx : FileCtx)
    (ident : Ident) (h : ¬ lastIdxOf raw '|' < 0) :
    createMatcher gmatch raw ctx ident =
      ((raw.take (lastIdxOf raw '|').toNat ≠ [] &&
          gmatch ctx.fileName (raw.take (lastIdxOf raw '|').toNat))
        || (raw.drop ((lastIdxOf raw '|').toNat + 1) ≠ [] &&
              gmatch ident.text (raw.drop ((lastIdxOf raw '|').toNat + 1)))
        || (match jsNumberOpt (raw.drop (lastIdxOf raw ':' + 1).toNat) with
            | some n => (ctx.posOf ident.startPos).line + 1 == n
            | none => false)) := by
  unfold createMatcher
  rw [if_neg h]

/-- C5: filter rules are disjunctive.  Part one: on any pipe-form rule,
the compiled matcher fires when any present sub-condition (path glob,
name glob, or exact line number) matches.  Part two: a rule carrying
only a name pattern (`|p`) excludes a declaration with a matching
identifier, whatever its file and line.  Part three: a rule carrying
only a line number (`|:n`) excludes any declaration whose 1-based start
line is `n`.  Part four: `createFilter` drops a node as soon as any one
compiled rule matches it. -/
theorem claim5_filter_rules_disjunctive (gmatch : JsStr → JsStr → Bool) :
    (∀ (raw : JsStr) (ctx : FileCtx) (ident : Ident),
        0 ≤ lastIdxOf raw '|' →
        ((raw.take (lastIdxOf raw '|').toNat ≠ [] ∧
            gmatch ctx.fileName (raw.take (lastIdxOf raw '|').toNat) = true) ∨
          (raw.drop ((lastIdxOf raw '|').toNat + 1) ≠ [] ∧
            gmatch ident.text (raw.drop ((lastIdxOf raw '|').toNat + 1)) = true) ∨
          (∃ n, jsNumberOpt (raw.drop (lastIdxOf raw ':' + 1).toNat) = some n ∧
              (ctx.posOf ident.startPos).line + 1 = n)) →
        createMatcher gmatch raw ctx ident = true) ∧
    (∀ (p : JsStr) (ctx : FileCtx) (ident : Ident),
        p ≠ [] → '|' ∉ p → gmatch ident.text p = true →
        createMatcher gmatch ('|' :: p) ctx ident = true) ∧
    (∀ (ds : JsStr) (ctx : FileCtx) (ident : Ident),
        ds ≠ [] → ds.all Char.isDigit = true → digitsToNat ds ≠ 0 →
        (ctx.posOf ident.startPos).line + 1 = digitsToNat ds →
        createMatcher gmatch ('|' :: ':' :: ds) ctx ident = true) ∧
    (∀ (rules : List JsStr) (raw : JsStr) (ctx : FileCtx) (ident : Ident),
        raw ∈ rules → createMatcher gmatch raw ctx ident = true →
        createFilter gmatch rules ctx ident = false) := by
  have part0 : ∀ (raw : JsStr) (ctx : FileCtx) (ident : Ident),
      0 ≤ lastIdxOf raw '|' →
      ((raw.take (lastIdxOf raw '|').toNat ≠ [] ∧
          gmatch ctx.fileName (raw.take (lastIdxOf raw '|').toNat) = true) ∨
        (raw.drop ((lastIdxOf raw '|').toNat + 1) ≠ [] ∧
          gmatch ident.text (raw.drop ((lastIdxOf raw '|').toNat + 1)) = true) ∨
        (∃ n, jsNumberOpt (raw.drop (lastIdxOf raw ':' + 1).toNat) = some n ∧
            (ctx.posOf ident.startPos).line + 1 = n)) →
      createMatcher gmatch raw ctx ident = true := by
    intro raw ctx ident hpipe hdisj
    rw [createMatcher_pipe gmatch raw ctx ident (by omega)]
    rcases hdisj with ⟨h1, h2⟩ | ⟨h1, h2⟩ | ⟨n, hn, hl⟩
    · simp [h1, h2]
    · simp [h1, h2]
    · rw [hn]
      simp [hl]
  refine ⟨part0, ?_, ?_, ?_⟩
  · intro p ctx ident hne hnp hg
    have hpipe : lastIdxOf ('|' :: p) '|' = 0 := lastIdxOf_cons_head hnp
    apply part0 _ ctx ident (by rw [hpipe])
    right
    left
    rw [hpipe]
    constructor
    · simpa using hne
    · simpa using hg
  · intro ds ctx ident hne hdig hnz hl
    have hnp : '|' ∉ ds := by
      intro hm
      have := List.all_eq_true.mp hdig _ hm
      exact absurd this (by decide)
    have hnc : ':' ∉ ds := by
      intro hm
      have := List.all_eq_true.mp hdig _ hm
      exact absurd this (by decide)
    have hp0 : lastIdxOf ('|' :: ':' :: ds) '|' = 0 := by
      apply lastIdxOf_cons_head
      intro hm
      rcases List.mem_cons.mp hm with h | h
      · exact absurd h (by decide)
      · exact hnp h
    have hc1 : lastIdxOf ('|' :: ':' :: ds) ':' = 1 := by
      rw [lastIdxOf]
      simp [lastIdxOf_cons_head hnc]
    apply part0 _ ctx ident (by rw [hp0])
    right
    right
    refine ⟨digitsToNat ds, ?_, hl⟩
    rw [hc1]
    have hdrop : (('|' :: ':' :: ds).drop ((1 : Int) + 1).toNat) = ds := by
      rfl
    rw [hdrop]
    exact jsNumberOpt_digits hne hdig hnz
  · intro rules raw ctx ident hmem hmatch
    unfold createFilter
    have hany : (rules.map (createMatcher gmatch)).any (fun m => m ctx ident) = true :=
      List.any_eq_true.mpr ⟨createMatcher gmatch raw, List.mem_map_of_mem _ hmem, hmatch⟩
    simp [hany]

/-- C5 witness: a name-only rule `|foo` excludes the identifier `foo`
(in a file and at a line the rule says nothing about), a line-only rule
`|:7` excludes a declaration starting on line 7, and `createFilter`
drops a node matched by one rule of its list. -/
theorem claim5_witness :
    createMatcher gmatchEq (str "|foo") ctx0 ⟨str "foo", 3⟩ = true ∧
    createMatcher gmatchNone (str "|:7") ctx0 ⟨str "ident", 6⟩ = true ∧
    createFilter gmatchEq [str "|foo"] ctx0 ⟨str "foo", 3⟩ = false :=
  ⟨(claim5_filter_rules_disjunctive gmatchEq).2.1 (str "foo") ctx0 ⟨str "foo", 3⟩
     (by decide) (by decide) (by decide),
   (claim5_filter_rules_disjunctive gmatchNone).2.2.1 (str "7") ctx0 ⟨str "ident", 6⟩
     (by decide) (by decide) (by decide) (by decide),
   (claim5_filter_rules_disjunctive gmatchEq).2.2.2 [str "|foo"] (str "|foo") ctx0
     ⟨str "foo", 3⟩ (by decide)
     ((claim5_filter_rules_disjunctive gmatchEq).2.1 (str "foo") ctx0 ⟨str "foo", 3⟩
       (by decide) (by decide) (by decide))⟩


/-- C7: for a class-element candidate, a non-definition reference in the
defining file whose position falls within the enclosing declaration's
span is discarded by the classifier; consequently, when every reference
of every group is a definition, a test-file hit, or such an in-span
self-reference, the declaration is classified unused and its record is
emitted in the file's report. -/
theorem claim7_self_reference_excluded (gmatch : JsStr → JsStr → Bool) (rules : List JsStr)
    (resolve : JsStr → Nat → Option (List RefGroup)) (u : SourceUnit) (t : Target)
    (groups : List RefGroup)
    (ht : t ∈ unitTargets gmatch rules u)
    (hres : ∀ t' ∈ unitTargets gmatch rules u, resolve u.fileName t'.ident.startPos ≠ none)
    (hgs : resolve u.fileName t.ident.startPos = some groups)
    (hall : ∀ g ∈ groups, ∀ r ∈ g.references,
        r.isDefinition = true ∨ gmatch r.fileName testFilePattern = true ∨
          (g.defKind = .classElement ∧ r.fileName = u.fileName ∧
            t.parentStart ≤ r.start ∧ r.start + r.length < t.parentEnd)) :
    (∀ r : RefEntry, r.isDefinition = false → r.fileName = u.fileName →
        t.parentStart ≤ r.start → r.start + r.length < t.parentEnd →
        refSurvives gmatch u.fileName t ScriptElementKind.classElement r = false) ∧
    isReferenced gmatch resolve u.fileName t = .ok false ∧
    mkRecord u t ∈ unitRecords gmatch rules resolve u ∧
    processFile gmatch rules resolve u =
      .ok (unitRecords gmatch rules resolve u, unitLines gmatch rules resolve u) := by
  have hkill : ∀ g ∈ groups, ∀ r ∈ g.references,
      refSurvives gmatch u.fileName t g.defKind r = false := by
    intro g hg r hr
    rcases hall g hg r hr with hd | htst | ⟨hk, hfn, hs1, hs2⟩
    · simp [refSurvives, hd]
    · simp [refSurvives, htst]
    · simp [refSurvives, hk, hfn, hs1, hs2]
  have hany : (groups.any fun g =>
      g.references.any (refSurvives gmatch u.fileName t g.defKind)) = false := by
    rw [List.any_eq_false]
    intro g hg
    rw [Bool.not_eq_true, List.any_eq_false]
    intro r hr
    rw [Bool.not_eq_true]
    exact hkill g hg r hr
  have hused : usedB gmatch resolve u t = false := by
    rw [usedB_eq_any gmatch resolve hgs]
    exact hany
  refine ⟨?_, ?_, ?_, processFile_eq gmatch rules resolve u hres⟩
  · intro r hd hfn hs1 hs2
    simp [refSurvives, hd, hfn, hs1, hs2]
  · unfold isReferenced
    rw [hgs]
    show Except.ok (groups.any fun g =>
      g.references.any (refSurvives gmatch u.fileName t g.defKind)) = Except.ok false
    rw [hany]
  · rw [unitRecords]
    apply List.mem_map_of_mem
    rw [List.mem_filter]
    exact ⟨ht, by simp [hused]⟩

/-- C7 witness: the concrete class method `m` whose only reference is a
recursive call inside its own body (offset 120 inside span 100–140 of
the defining file) is classified unused and reported. -/
theorem claim7_witness :
    (∀ r : RefEntry, r.isDefinition = false → r.fileName = classUnit.fileName →
        methTarget.parentStart ≤ r.start → r.start + r.length < methTarget.parentEnd →
        refSurvives gmatchNone classUnit.fileName methTarget
          ScriptElementKind.classElement r = false) ∧
    isReferenced gmatchNone resolveSelfRef classUnit.fileName methTarget = .ok false ∧
    mkRecord classUnit methTarget ∈ unitRecords gmatchNone [] resolveSelfRef classUnit ∧
    processFile gmatchNone [] resolveSelfRef classUnit =
      .ok (unitRecords gmatchNone [] resolveSelfRef classUnit,
           unitLines gmatchNone [] resolveSelfRef classUnit) :=
  claim7_self_reference_excluded gmatchNone [] resolveSelfRef classUnit methTarget
    [⟨.classElement, [⟨str "b.ts", 120, 1, false⟩]⟩]
    (by decide)
    (fun t' ht' => by simp [resolveSelfRef])
    (by rfl)
    (by
      intro g hg r hr
      rw [List.mem_singleton] at hg
      subst hg
      rw [List.mem_singleton] at hr
      subst hr
      right
      right
      exact ⟨rfl, rfl, by decide, by decide⟩)


/-- C6: every record emitted for an unused declaration carries
`span = 1 + (end.line - start.line)` where `start`/`end` are the
line/character positions of the enclosing declaration node's own
start/end offsets (the identifier's parent), and under monotone line
numbering and well-formed node spans the span is at least 1. -/
theorem claim6_span_from_enclosing (gmatch : JsStr → JsStr → Bool) (rules : List JsStr)
    (resolve : JsStr → Nat → Option (List RefGroup)) (u : SourceUnit)
    (hres : ∀ t ∈ unitTargets gmatch rules u, resolve u.fileName t.ident.startPos ≠ none)
    (hmono : ∀ a b : Nat, a ≤ b → (u.posOf a).line ≤ (u.posOf b).line)
    (hwf : wfSpansB u.root = true) :
    processFile gmatch rules resolve u =
      .ok (unitRecords gmatch rules resolve u, unitLines gmatch rules resolve u) ∧
    ∀ r ∈ unitRecords gmatch rules resolve u,
      ∃ m, Subnode m u.root ∧ (∃ i, declIdent m = some i ∧ r.symbolName = i.text) ∧
        r.start = u.posOf m.startPos ∧ r.endPos = u.posOf m.endPos ∧
        r.span = 1 + (r.endPos.line : Int) - (r.start.line : Int) ∧ 1 ≤ r.span := by
  refine ⟨processFile_eq gmatch rules resolve u hres, ?_⟩
  intro r hr
  have hge := unitRecords_span_ge_one gmatch rules resolve u hmono hwf r hr
  obtain ⟨t, m, ht, rfl, hused, hsub, hne, hself⟩ :=
    unitRecords_origin gmatch rules resolve u r hr
  obtain ⟨hp, hdecl, hf, hps, hpe⟩ := selfTarget_eq_some.mp hself
  refine ⟨m, hsub, ⟨t.ident, hdecl, rfl⟩, ?_, ?_, rfl, hge⟩
  · show u.posOf t.parentStart = u.posOf m.startPos
    rw [hps]
  · show u.posOf t.parentEnd = u.posOf m.endPos
    rw [hpe]

/-- C6 witness: the concrete unused function `foo` (node offsets 8–20,
identity line map) yields a record with start/end from the enclosing
function node and span `13 ≥ 1`. -/
theorem claim6_witness :
    processFile gmatchNone [] resolveNoRefs fooUnit =
      .ok (unitRecords gmatchNone [] resolveNoRefs fooUnit,
           unitLines gmatchNone [] resolveNoRefs fooUnit) ∧
    ∀ r ∈ unitRecords gmatchNone [] resolveNoRefs fooUnit,
      ∃ m, Subnode m fooUnit.root ∧ (∃ i, declIdent m = some i ∧ r.symbolName = i.text) ∧
        r.start = fooUnit.posOf m.startPos ∧ r.endPos = fooUnit.posOf m.endPos ∧
        r.span = 1 + (r.endPos.line : Int) - (r.start.line : Int) ∧ 1 ≤ r.span :=
  claim6_span_from_enclosing gmatchNone [] resolveNoRefs fooUnit
    (fun t ht => by simp [resolveNoRefs])
    (fun a b h => h)
    (by decide)

/-- C8: the per-file `fileLines` value and the global `totalLines` value
each equal the sum of the spans of the records they cover: each file's
accumulated total is the sum of that file's record spans, and the global
total is the sum over the whole unused list. -/
theorem claim8_totals_equal_sum (gmatch : JsStr → JsStr → Bool) (rules : List JsStr)
    (resolve : JsStr → Nat → Option (List RefGroup)) (units : List SourceUnit)
    (hres : ∀ u ∈ units, ∀ t ∈ unitTargets gmatch rules u,
        resolve u.fileName t.ident.startPos ≠ none)
    (hmono : ∀ u ∈ units, ∀ a b : Nat, a ≤ b → (u.posOf a).line ≤ (u.posOf b).line)
    (hwf : ∀ u ∈ units, wfSpansB u.root = true) :
    (∀ u ∈ units, processFile gmatch rules resolve u =
        .ok (unitRecords gmatch rules resolve u,
             ((unitRecords gmatch rules resolve u).map UnusedSymbolRecord.span).sum)) ∧
    run gmatch rules resolve units =
      .ok (allRecords gmatch rules resolve units,
           ((allRecords gmatch rules resolve units).map UnusedSymbolRecord.span).sum) := by
  constructor
  · intro u hu
    exact processFile_eq gmatch rules resolve u (hres u hu)
  · rw [run_eq gmatch rules resolve units hres,
      totalLines_eq_sum gmatch rules resolve units hmono hwf]

/-- C8 witness: the single-file run over `foo` gives `fileLines` and
`totalLines` equal to the one record's span. -/
theorem claim8_witness :
    (∀ u ∈ [fooUnit], processFile gmatchNone [] resolveNoRefs u =
        .ok (unitRecords gmatchNone [] resolveNoRefs u,
             ((unitRecords gmatchNone [] resolveNoRefs u).map UnusedSymbolRecord.span).sum)) ∧
    run gmatchNone [] resolveNoRefs [fooUnit] =
      .ok (allRecords gmatchNone [] resolveNoRefs [fooUnit],
           ((allRecords gmatchNone [] resolveNoRefs [fooUnit]).map
              UnusedSymbolRecord.span).sum) :=
  claim8_totals_equal_sum gmatchNone [] resolveNoRefs [fooUnit]
    (fun u hu t ht => by simp [resolveNoRefs])
    (fun u hu => by
      have he : u = fooUnit := by simpa using hu
      subst he
      exact fun a b h => h)
    (fun u hu => by
      have he : u = fooUnit := by simpa using hu
      subst he
      decide)


/-- C2 (counterexample): the final report is NOT sorted descending by
span — `compareBySpan` is defined in the source but never invoked, and
the program prints `unused.join('\n')` as-is.  For a run discovering
records with spans `[5, 1, 3]` in that order, the report order is
`[5, 1, 3]`, not the claimed `[5, 3, 1]`. -/
theorem claim2_counterexample :
    (run gmatchNone [] resolveNoRefs [sortUnit]).map
        (fun p => p.1.map UnusedSymbolRecord.span) = .ok [5, 1, 3] ∧
    (run gmatchNone [] resolveNoRefs [sortUnit]).map
        (fun p => p.1.map UnusedSymbolRecord.span) ≠ .ok [5, 3, 1] := by
  refine ⟨rfl, fun h => ?_⟩
  have hv : (Except.ok [5, 1, 3] : Except Unit (List Int)) = .ok [5, 3, 1] :=
    Eq.trans (by rfl) h
  exact absurd (Except.ok.inj hv) (by decide)

/-- C2 (amended): the final report lists the records in discovery order
(the per-file bucket order, files in enumeration order) — the run's
output is exactly the concatenated per-unit record lists with no
reordering; `compareBySpan` is an ascending-by-span comparator that the
report never applies. -/
theorem claim2_discovery_order (gmatch : JsStr → JsStr → Bool) (rules : List JsStr)
    (resolve : JsStr → Nat → Option (List RefGroup)) (units : List SourceUnit)
    (hres : ∀ u ∈ units, ∀ t ∈ unitTargets gmatch rules u,
        resolve u.fileName t.ident.startPos ≠ none) :
    run gmatch rules resolve units =
      .ok (allRecords gmatch rules resolve units, totalLines gmatch rules resolve units) ∧
    ∀ a b : UnusedSymbolRecord, UnusedSymbolRecord.compareBySpan a b = a.span - b.span :=
  ⟨run_eq gmatch rules resolve units hres, fun _ _ => rfl⟩

/-- C2 witness: the amended claim on the concrete three-record run. -/
theorem claim2_witness :
    run gmatchNone [] resolveNoRefs [sortUnit] =
      .ok (allRecords gmatchNone [] resolveNoRefs [sortUnit],
           totalLines gmatchNone [] resolveNoRefs [sortUnit]) ∧
    ∀ a b : UnusedSymbolRecord, UnusedSymbolRecord.compareBySpan a b = a.span - b.span :=
  claim2_discovery_order gmatchNone [] resolveNoRefs [sortUnit]
    (fun u hu t ht => by simp [resolveNoRefs])

/-- C1: a candidate declaration's record appears in the global unused
list iff no reference record for it survives the classifier's filters —
records flagged `isDefinition`, records in test-file locations, and
in-span class-element records in the defining file are discarded, and
one surviving record anywhere makes the declaration used. -/
theorem claim1_unused_iff_no_surviving_reference (gmatch : JsStr → JsStr → Bool)
    (rules : List JsStr) (resolve : JsStr → Nat → Option (List RefGroup))
    (units : List SourceUnit) (u : SourceUnit) (t : Target) (groups : List RefGroup)
    (hu : u ∈ units) (ht : t ∈ unitTargets gmatch rules u)
    (hres : ∀ u' ∈ units, ∀ t' ∈ unitTargets gmatch rules u',
        resolve u'.fileName t'.ident.startPos ≠ none)
    (hgs : resolve u.fileName t.ident.startPos = some groups)
    (hinj : ∀ u' ∈ units, ∀ t' ∈ unitTargets gmatch rules u',
        mkRecord u' t' = mkRecord u t → t' = t) :
    run gmatch rules resolve units =
      .ok (allRecords gmatch rules resolve units, totalLines gmatch rules resolve units) ∧
    (mkRecord u t ∈ allRecords gmatch rules resolve units ↔
      ¬ ∃ g ∈ groups, ∃ r ∈ g.references,
          refSurvives gmatch u.fileName t g.defKind r = true) := by
  refine ⟨run_eq gmatch rules resolve units hres, ?_⟩
  have hused : usedB gmatch resolve u t =
      groups.any (fun g => g.references.any (refSurvives gmatch u.fileName t g.defKind)) :=
    usedB_eq_any gmatch resolve hgs
  have hex : (groups.any fun g =>
        g.references.any (refSurvives gmatch u.fileName t g.defKind)) = true ↔
      ∃ g ∈ groups, ∃ r ∈ g.references,
        refSurvives gmatch u.fileName t g.defKind r = true := by
    rw [List.any_eq_true]
    constructor
    · rintro ⟨g, hg, hr⟩
      obtain ⟨r, hrm, hrs⟩ := List.any_eq_true.mp hr
      exact ⟨g, hg, r, hrm, hrs⟩
    · rintro ⟨g, hg, r, hrm, hrs⟩
      exact ⟨g, hg, List.any_eq_true.mpr ⟨r, hrm, hrs⟩⟩
  constructor
  · intro hmem hsurv
    rw [allRecords] at hmem
    obtain ⟨l, hl, hrl⟩ := List.mem_flatten.mp hmem
    obtain ⟨u', hu', rfl⟩ := List.mem_map.mp hl
    rw [unitRecords] at hrl
    obtain ⟨t', ht', hmk⟩ := List.mem_map.mp hrl
    obtain ⟨htmem, htfilt⟩ := List.mem_filter.mp ht'
    have hteq : t' = t := hinj u' hu' t' htmem hmk
    subst hteq
    have hfn : u'.fileName = u.fileName := by
      have := congrArg UnusedSymbolRecord.fileName hmk
      simpa [mkRecord] using this
    have husame : usedB gmatch resolve u' t' = usedB gmatch resolve u t' := by
      unfold usedB
      rw [hfn]
    rw [husame, hused, hex.mpr hsurv] at htfilt
    exact absurd htfilt (by decide)
  · intro hnone
    have hfalse : usedB gmatch resolve u t = false := by
      rw [hused]
      cases hval : (groups.any fun g =>
          g.references.any (refSurvives gmatch u.fileName t g.defKind)) with
      | false => rfl
      | true => exact absurd (hex.mp hval) hnone
    rw [allRecords]
    apply List.mem_flatten.mpr
    refine ⟨unitRecords gmatch rules resolve u, List.mem_map_of_mem _ hu, ?_⟩
    rw [unitRecords]
    apply List.mem_map_of_mem
    rw [List.mem_filter]
    exact ⟨ht, by simp [hfalse]⟩

/-- C1 witness: the concrete candidate `foo` with an empty reference
result is in the unused list, and the iff holds with the (vacuous)
no-surviving-reference side. -/
theorem claim1_witness :
    run gmatchNone [] resolveNoRefs [fooUnit] =
      .ok (allRecords gmatchNone [] resolveNoRefs [fooUnit],
           totalLines gmatchNone [] resolveNoRefs [fooUnit]) ∧
    (mkRecord fooUnit fooTarget ∈ allRecords gmatchNone [] resolveNoRefs [fooUnit] ↔
      ¬ ∃ g ∈ ([] : List RefGroup), ∃ r ∈ g.references,
          refSurvives gmatchNone fooUnit.fileName fooTarget g.defKind r = true) :=
  claim1_unused_iff_no_surviving_reference gmatchNone [] resolveNoRefs [fooUnit]
    fooUnit fooTarget []
    (List.mem_cons_self _ _)
    (by decide)
    (fun u' hu' t' ht' => by simp [resolveNoRefs])
    (by rfl)
    (fun u' hu' t' ht' hmk => by
      have he : u' = fooUnit := by simpa using hu'
      subst he
      have hlist : unitTargets gmatchNone [] fooUnit = [fooTarget] := by rfl
      rw [hlist] at ht'
      simpa using ht')

end TsUnused
